import Mathlib

/-!
Verification of the pylot stream-synchronization and metric operators: a
shallow embedding of the operator logic of `prediction_eval_operator.py`,
`carla_lidar_driver_operator.py` and `detection_decay_operator.py`,
with theorems settling the specification claims about them.
-/

/-- A 2D point with rational coordinates, embedding `pylot.utils.Vector2D`.
The evaluator drops altitude before comparing, so points are 2D. -/
structure Vector2D where
  x : ℚ
  y : ℚ
  deriving DecidableEq, Repr

/-- Modelled from the spec: `pylot.utils.Vector2D.l2_distance` is not under
`src/`; the spec fixes mean-squared-distance as the average *squared*
Euclidean distance over aligned pairs, and `_calculate_metrics` averages
`l2_distance` over the aligned pairs, so `l2_distance` denotes the squared
Euclidean distance between two points. -/
def Vector2D.l2_distance (v w : Vector2D) : ℚ :=
  (v.x - w.x) ^ 2 + (v.y - w.y) ^ 2

/-- Modelled from the spec: `pylot.utils.Vector2D.l1_distance` is not under
`src/`; the spec fixes average/final displacement error as Manhattan (L1)
distance, so `l1_distance` is the Manhattan distance between two points. -/
def Vector2D.l1_distance (v w : Vector2D) : ℚ :=
  |v.x - w.x| + |v.y - w.y|

/-- The Python exceptions the embedded operator code can raise. -/
inductive PyError where
  | keyError
  | indexError
  | zeroDivisionError
  | valueError
  deriving DecidableEq, Repr

/-- Python negative indexing: `xs[-i]` succeeds exactly when
`1 ≤ i ≤ len(xs)` and then returns the element at offset `len(xs) - i`;
otherwise it raises `IndexError`. -/
def pyNegGet (xs : List Vector2D) (i : Nat) : Except PyError Vector2D :=
  if h : 1 ≤ i ∧ i ≤ xs.length then
    Except.ok (xs.get ⟨xs.length - i, by omega⟩)
  else
    Except.error PyError.indexError

/-- The accumulation loop of `_calculate_metrics`
(`prediction_eval_operator.py` lines 140-148): for `idx` in `1..k` it adds
`predicted[-idx].l2_distance(ground[-idx])` into the first component and
`predicted[-idx].l1_distance(ground[-idx])` into the second, raising
`IndexError` as Python does when a negative index is out of range. -/
def distLoop (predicted ground : List Vector2D) : Nat → Except PyError (ℚ × ℚ)
  | 0 => Except.ok (0, 0)
  | k + 1 => do
    let acc ← distLoop predicted ground k
    let p ← pyNegGet predicted (k + 1)
    let g ← pyNegGet ground (k + 1)
    Except.ok (acc.1 + p.l2_distance g, acc.2 + p.l1_distance g)

/-- The three per-entity trajectory metrics logged by `_calculate_metrics`. -/
structure EntityMetrics where
  msd : ℚ
  ade : ℚ
  fde : ℚ
  deriving DecidableEq, Repr

/-- The per-entity scoring block of `_calculate_metrics`
(`prediction_eval_operator.py` lines 140-151): run the distance loop over
`idx = 1 .. len(predicted)`, divide both sums by `len(predicted)` (raising
`ZeroDivisionError` when the predicted trajectory is empty, as Python
does), and take the final displacement error as the L1 distance of the
most recent pair `predicted[-1], ground[-1]`. -/
def score (predicted ground : List Vector2D) : Except PyError EntityMetrics := do
  let acc ← distLoop predicted ground predicted.length
  if predicted.length = 0 then
    Except.error PyError.zeroDivisionError
  else do
    let p ← pyNegGet predicted 1
    let g ← pyNegGet ground 1
    Except.ok ⟨acc.1 / (predicted.length : ℚ), acc.2 / (predicted.length : ℚ),
               p.l1_distance g⟩

/-- Specification-side squared Euclidean distance, written independently of
the embedded code for use in claim statements. -/
def sqEuclid (v w : Vector2D) : ℚ :=
  (v.x - w.x) ^ 2 + (v.y - w.y) ^ 2

/-- Specification-side Manhattan distance, written independently of the
embedded code for use in claim statements. -/
def manhattan (v w : Vector2D) : ℚ :=
  |v.x - w.x| + |v.y - w.y|

/-- Translation of a point by a constant offset, used to state the
constant-offset consequence in the spec. -/
def Vector2D.offsetBy (v : Vector2D) (dx dy : ℚ) : Vector2D :=
  ⟨v.x + dx, v.y + dy⟩

deriving instance DecidableEq for Except

theorem listGetElemCongr (l : List Vector2D) {i j : Nat} (hij : i = j)
    (hi : i < l.length) (hj : j < l.length) : l[i] = l[j] := by
  subst hij
  rfl

theorem pyNegGet_of_le (xs : List Vector2D) (i : Nat) (h1 : 1 ≤ i)
    (h2 : i ≤ xs.length) :
    pyNegGet xs i = Except.ok (xs.get ⟨xs.length - i, by omega⟩) := by
  simp [pyNegGet, h1, h2]

theorem distLoop_isOk (predicted ground : List Vector2D) (k : Nat)
    (h1 : k ≤ predicted.length) (h2 : k ≤ ground.length) :
    ∃ v, distLoop predicted ground k = Except.ok v := by
  induction k with
  | zero => exact ⟨(0, 0), rfl⟩
  | succ k ih =>
    obtain ⟨v, hv⟩ := ih (by omega) (by omega)
    rw [distLoop, hv, pyNegGet_of_le predicted (k + 1) (by omega) h1,
      pyNegGet_of_le ground (k + 1) (by omega) h2]
    exact ⟨_, rfl⟩

theorem distLoop_eq_zipWith (predicted ground : List Vector2D)
    (hlen : predicted.length = ground.length) (k : Nat)
    (hk : k ≤ predicted.length) :
    distLoop predicted ground k = Except.ok
      (((List.zipWith Vector2D.l2_distance predicted ground).drop
          (predicted.length - k)).sum,
       ((List.zipWith Vector2D.l1_distance predicted ground).drop
          (predicted.length - k)).sum) := by
  induction k with
  | zero =>
    have h2 : (List.zipWith Vector2D.l2_distance predicted ground).drop
        predicted.length = [] :=
      List.drop_eq_nil_of_le (by simp [List.length_zipWith])
    have h1 : (List.zipWith Vector2D.l1_distance predicted ground).drop
        predicted.length = [] :=
      List.drop_eq_nil_of_le (by simp [List.length_zipWith])
    simp [distLoop, h1, h2]
  | succ k ih =>
    have hk' : k ≤ predicted.length := by omega
    have hj2 : predicted.length - (k + 1) <
        (List.zipWith Vector2D.l2_distance predicted ground).length := by
      simp [List.length_zipWith]; omega
    have hj1 : predicted.length - (k + 1) <
        (List.zipWith Vector2D.l1_distance predicted ground).length := by
      simp [List.length_zipWith]; omega
    rw [distLoop, ih hk', pyNegGet_of_le predicted (k + 1) (by omega) hk,
      pyNegGet_of_le ground (k + 1) (by omega) (by omega)]
    simp only [Bind.bind, Except.bind, List.get_eq_getElem]
    rw [List.drop_eq_getElem_cons hj2, List.drop_eq_getElem_cons hj1]
    simp only [List.sum_cons, List.getElem_zipWith]
    rw [listGetElemCongr ground
        (show ground.length - (k + 1) = predicted.length - (k + 1) by omega)
        (by omega) (by omega),
      show predicted.length - (k + 1) + 1 = predicted.length - k by omega]
    simp only [Except.ok.injEq, Prod.mk.injEq]
    constructor <;> ring

theorem score_eq_of_length_eq (predicted ground : List Vector2D)
    (hlen : predicted.length = ground.length) (hne : predicted ≠ []) :
    score predicted ground = Except.ok
      ⟨(List.zipWith Vector2D.l2_distance predicted ground).sum /
          (predicted.length : ℚ),
       (List.zipWith Vector2D.l1_distance predicted ground).sum /
          (predicted.length : ℚ),
       (predicted.getLast hne).l1_distance
         (ground.getLast (by intro h; apply hne; simpa [h] using hlen))⟩ := by
  have hpos : 0 < predicted.length := List.length_pos.mpr hne
  rw [score, distLoop_eq_zipWith predicted ground hlen predicted.length le_rfl,
    pyNegGet_of_le predicted 1 le_rfl hpos,
    pyNegGet_of_le ground 1 le_rfl (by omega)]
  simp only [Bind.bind, Except.bind, Nat.sub_self, List.drop_zero]
  rw [if_neg (by omega : ¬ predicted.length = 0)]
  simp only [List.get_eq_getElem, List.getLast_eq_getElem]

theorem l2_distance_offsetBy (dx dy : ℚ) (a : Vector2D) :
    a.l2_distance (a.offsetBy dx dy) = dx ^ 2 + dy ^ 2 := by
  simp only [Vector2D.l2_distance, Vector2D.offsetBy]
  ring

theorem l1_distance_offsetBy (dx dy : ℚ) (a : Vector2D) :
    a.l1_distance (a.offsetBy dx dy) = |dx| + |dy| := by
  simp only [Vector2D.l1_distance, Vector2D.offsetBy]
  rw [show a.x - (a.x + dx) = -dx by ring, show a.y - (a.y + dy) = -dy by ring,
    abs_neg, abs_neg]

/-- C1: for every pair of equal-length non-empty aligned trajectories, the
per-entity scorer of `_calculate_metrics` succeeds and its
mean-squared-distance is the average of the squared Euclidean distances
over all aligned point pairs; and when the ground trajectory is the
predicted one translated by a constant offset `(dx, dy)` at every point,
it returns mean-squared-distance `dx² + dy²` and average and final
displacement errors `|dx| + |dy|`. -/
theorem claim_msd_average_and_constant_offset
    (predicted ground : List Vector2D) (dx dy : ℚ)
    (hlen : predicted.length = ground.length) (hne : predicted ≠ []) :
    (∃ m, score predicted ground = Except.ok m ∧
        m.msd = (List.zipWith sqEuclid predicted ground).sum /
          (predicted.length : ℚ)) ∧
    (ground = predicted.map (fun v => v.offsetBy dx dy) →
      score predicted ground =
        Except.ok ⟨dx ^ 2 + dy ^ 2, |dx| + |dy|, |dx| + |dy|⟩) := by
  have h0 : predicted.length ≠ 0 := by
    have := List.length_pos.mpr hne
    omega
  have hq : (predicted.length : ℚ) ≠ 0 := Nat.cast_ne_zero.mpr h0
  constructor
  · exact ⟨_, score_eq_of_length_eq predicted ground hlen hne, rfl⟩
  · intro hoff
    subst hoff
    rw [score_eq_of_length_eq predicted _ (by simp) hne]
    simp only [List.zipWith_map_right, List.zipWith_same,
      l2_distance_offsetBy, l1_distance_offsetBy, List.map_const',
      List.sum_replicate, List.getLast_map, nsmul_eq_mul,
      mul_div_cancel_left₀ _ hq, l1_distance_offsetBy]

theorem claim_msd_average_and_constant_offset_witness :
    score [⟨0, 0⟩, ⟨1, 1⟩] [⟨3, 4⟩, ⟨4, 5⟩] = Except.ok ⟨25, 7, 7⟩ := by
  have h := (claim_msd_average_and_constant_offset
    [⟨0, 0⟩, ⟨1, 1⟩] [⟨3, 4⟩, ⟨4, 5⟩] 3 4 (by decide) (by decide)).2
    (by norm_num [Vector2D.offsetBy])
  rw [h]
  norm_num

/-- C4 counterexample: a predicted trajectory of length 1 and a ground
trajectory of length 2 have different lengths, yet the per-entity scorer
succeeds (silently scoring the most recent pair) instead of failing with
a length-mismatch error. -/
theorem claim_length_mismatch_counterexample :
    (([⟨0, 0⟩] : List Vector2D).length ≠
        ([⟨0, 0⟩, ⟨1, 1⟩] : List Vector2D).length) ∧
    score [⟨0, 0⟩] [⟨0, 0⟩, ⟨1, 1⟩] = Except.ok ⟨2, 2, 2⟩ := by
  constructor
  · decide
  · norm_num [score, distLoop, pyNegGet, Vector2D.l2_distance,
      Vector2D.l1_distance, Bind.bind, Except.bind]

theorem distLoop_error_of_lt (predicted ground : List Vector2D) (k : Nat)
    (hps : k ≤ predicted.length) (hgs : ground.length < k) :
    distLoop predicted ground k = Except.error PyError.indexError := by
  induction k with
  | zero => omega
  | succ k ih =>
    by_cases hk : ground.length < k
    · rw [distLoop, ih (by omega) hk]
      rfl
    · have heq : ground.length = k := by omega
      obtain ⟨v, hv⟩ := distLoop_isOk predicted ground k (by omega) (by omega)
      rw [distLoop, hv, pyNegGet_of_le predicted (k + 1) (by omega) hps]
      have : pyNegGet ground (k + 1) = Except.error PyError.indexError := by
        rw [pyNegGet, dif_neg]
        omega
      rw [this]
      rfl

theorem pyNegGet_drop (ground : List Vector2D) (n i : Nat) (h1 : 1 ≤ i)
    (h2 : i ≤ ground.length - n) :
    pyNegGet (ground.drop n) i = pyNegGet ground i := by
  have hn : n < ground.length := by omega
  rw [pyNegGet_of_le (ground.drop n) i h1 (by simp [List.length_drop]; omega),
    pyNegGet_of_le ground i h1 (by omega)]
  congr 1
  simp only [List.get_eq_getElem, List.length_drop]
  rw [List.getElem_drop]
  exact listGetElemCongr ground (by omega) (by omega) (by omega)

theorem distLoop_drop (predicted ground : List Vector2D) (k : Nat)
    (hk : k ≤ predicted.length) (hle : predicted.length ≤ ground.length) :
    distLoop predicted ground k =
      distLoop predicted (ground.drop (ground.length - predicted.length))
        k := by
  induction k with
  | zero => rfl
  | succ k ih =>
    rw [distLoop, distLoop, ih (by omega),
      pyNegGet_drop ground (ground.length - predicted.length) (k + 1)
        (by omega) (by omega)]

theorem score_drop_suffix (predicted ground : List Vector2D)
    (hne : predicted ≠ []) (hle : predicted.length ≤ ground.length) :
    score predicted ground =
      score predicted (ground.drop (ground.length - predicted.length)) := by
  have hpos : 0 < predicted.length := List.length_pos.mpr hne
  rw [score, score,
    distLoop_drop predicted ground predicted.length le_rfl hle,
    pyNegGet_drop ground (ground.length - predicted.length) 1 le_rfl
      (by omega)]

theorem getLast_drop_eq (ground : List Vector2D) (n : Nat)
    (h : ground.drop n ≠ []) (h2 : ground ≠ []) :
    (ground.drop n).getLast h = ground.getLast h2 := by
  have hlt : n < ground.length := by
    by_contra hc
    exact h (List.drop_eq_nil_of_le (by omega))
  rw [List.getLast_eq_getElem, List.getLast_eq_getElem]
  simp only [List.length_drop]
  rw [List.getElem_drop]
  exact listGetElemCongr ground (by omega) (by omega) (by omega)

/-- C4 amended: the per-entity scorer of `_calculate_metrics` raises an
index error when the predicted trajectory is longer than the ground
trajectory, raises a division-by-zero error when the predicted trajectory
is empty, and when the predicted trajectory is non-empty and not longer
than the ground trajectory it succeeds, silently scoring the predicted
trajectory against exactly the ground trajectory's most recent
`len(predicted)` points (its length-`len(predicted)` suffix): the
mean-squared and average-displacement values average the pairwise
distances against that suffix, and the final displacement error pairs
the two most recent points. -/
theorem claim_length_mismatch_amended (predicted ground : List Vector2D) :
    (ground.length < predicted.length →
      score predicted ground = Except.error PyError.indexError) ∧
    (predicted = [] →
      score predicted ground = Except.error PyError.zeroDivisionError) ∧
    (∀ (hne : predicted ≠ [])
      (hle : predicted.length ≤ ground.length),
      score predicted ground = Except.ok
        ⟨(List.zipWith Vector2D.l2_distance predicted
            (ground.drop (ground.length - predicted.length))).sum /
          (predicted.length : ℚ),
         (List.zipWith Vector2D.l1_distance predicted
            (ground.drop (ground.length - predicted.length))).sum /
          (predicted.length : ℚ),
         (predicted.getLast hne).l1_distance (ground.getLast (by
            intro hg
            apply hne
            apply List.length_eq_zero.mp
            rw [hg] at hle
            simpa using hle))⟩) := by
  refine ⟨?_, ?_, ?_⟩
  · intro hlt
    rw [score, distLoop_error_of_lt predicted ground predicted.length le_rfl hlt]
    rfl
  · intro he
    subst he
    rfl
  · intro hne hle
    have hgne : ground ≠ [] := by
      intro hg
      apply hne
      apply List.length_eq_zero.mp
      rw [hg] at hle
      simpa using hle
    have hslen : (ground.drop (ground.length - predicted.length)).length =
        predicted.length := by
      simp [List.length_drop]
      omega
    have hsne : ground.drop (ground.length - predicted.length) ≠ [] := by
      intro hg
      apply hne
      apply List.length_eq_zero.mp
      rw [← hslen, hg]
      rfl
    rw [score_drop_suffix predicted ground hne hle,
      score_eq_of_length_eq predicted _ hslen.symm hne,
      getLast_drop_eq ground (ground.length - predicted.length) hsne hgne]

theorem claim_length_mismatch_amended_witness :
    score [⟨0, 0⟩, ⟨1, 1⟩] [⟨0, 0⟩] = Except.error PyError.indexError ∧
    score ([] : List Vector2D) [⟨0, 0⟩] =
      Except.error PyError.zeroDivisionError ∧
    score [⟨0, 0⟩] [⟨0, 0⟩, ⟨1, 1⟩] = Except.ok ⟨2, 2, 2⟩ := by
  refine ⟨(claim_length_mismatch_amended [⟨0, 0⟩, ⟨1, 1⟩] [⟨0, 0⟩]).1
      (by decide),
    (claim_length_mismatch_amended [] [⟨0, 0⟩]).2.1 rfl, ?_⟩
  have h3 := (claim_length_mismatch_amended [⟨0, 0⟩] [⟨0, 0⟩, ⟨1, 1⟩]).2.2
    (by decide) (by decide)
  rw [h3]
  norm_num [List.zipWith, Vector2D.l2_distance, Vector2D.l1_distance,
    List.getLast_eq_getElem]

/-- The state of `PredictionEvalOperator` relevant to the warmup/scoring
schedule: the `_predictions` deque (`deque(maxlen=W)`, oldest batch first)
together with two observations of `_calculate_metrics` activity — the
list of batches it has been invoked on, in order, and its invocation
count. -/
structure EvalState (α : Type) where
  predictions : List α
  scored : List α
  scoreCount : Nat
  deriving DecidableEq, Repr

/-- Python `deque(maxlen=W).append(x)`: append on the right, evicting the
oldest (leftmost) element when the deque already holds `W` elements. -/
def dequeAppend {α : Type} (W : Nat) (q : List α) (x : α) : List α :=
  if q.length = W then q.tail ++ [x] else q ++ [x]

/-- The warmup/scoring logic of `PredictionEvalOperator.on_watermark`
(`prediction_eval_operator.py` lines 79-98) for one non-top watermark
whose prediction message is `batch`: when `len(self._predictions)`
already equals `W = prediction_num_future_steps`, `_calculate_metrics`
is invoked on the oldest buffered batch `self._predictions[0]` (an
`IndexError`, possible only for `W = 0`, is surfaced); afterwards the
new batch is appended to the bounded deque. -/
def eval_on_watermark {α : Type} (W : Nat) (s : EvalState α) (batch : α) :
    Except PyError (EvalState α) :=
  if s.predictions.length = W then
    match s.predictions with
    | [] => Except.error PyError.indexError
    | b :: _ =>
      Except.ok ⟨dequeAppend W s.predictions batch,
                 s.scored ++ [b], s.scoreCount + 1⟩
  else
    Except.ok ⟨dequeAppend W s.predictions batch, s.scored, s.scoreCount⟩

/-- A sequence of processed non-top watermarks, each carrying its
prediction batch, starting from a given operator state. -/
def evalRun {α : Type} (W : Nat) (s : EvalState α) (batches : List α) :
    Except PyError (EvalState α) :=
  batches.foldlM (eval_on_watermark W) s

/-- The initial state of `PredictionEvalOperator`: empty deque, no
scoring passes yet. -/
def evalInit {α : Type} : EvalState α := ⟨[], [], 0⟩

theorem evalRun_closed {α : Type} (W : Nat) (hW : 1 ≤ W)
    (batches : List α) :
    evalRun W evalInit batches = Except.ok
      ⟨batches.drop (batches.length - W),
       batches.take (batches.length - W),
       batches.length - W⟩ := by
  induction batches using List.reverseRecOn with
  | nil =>
    simp [evalRun, evalInit, Nat.zero_sub, Pure.pure, Except.pure]
  | append_singleton bs b ih =>
    rw [evalRun, List.foldlM_append]
    rw [evalRun] at ih
    rw [ih]
    simp only [List.foldlM_cons, List.foldlM_nil, Bind.bind, Except.bind]
    by_cases hn : bs.length < W
    · have h1 : bs.length - W = 0 := by omega
      have h2 : bs.length + 1 - W = 0 := by omega
      simp only [h1, List.drop_zero, List.take_zero]
      rw [eval_on_watermark, if_neg (by omega : ¬ bs.length = W)]
      simp [dequeAppend, if_neg (by omega : ¬ bs.length = W), h2,
        List.length_append, Pure.pure, Except.pure]
    · have hW2 : W ≤ bs.length := by omega
      have hlt : bs.length - W < bs.length := by omega
      have hdropLen : (bs.drop (bs.length - W)).length = W := by
        simp [List.length_drop]
        omega
      have hcons : List.drop (bs.length - W) bs =
          bs[bs.length - W] :: List.drop (bs.length - W + 1) bs :=
        List.drop_eq_getElem_cons hlt
      have hlen2 : (bs[bs.length - W] :: List.drop (bs.length - W + 1) bs).length
          = W := by
        simp [List.length_drop]
        omega
      simp only [eval_on_watermark]
      rw [if_pos hdropLen, hcons]
      simp only [dequeAppend]
      rw [if_pos hlen2]
      simp only [List.tail_cons, Pure.pure, Except.pure, Except.ok.injEq,
        EvalState.mk.injEq, List.length_append, List.length_singleton]
      refine ⟨?_, ?_, by omega⟩
      · rw [List.drop_append_of_le_length (by omega),
          show bs.length + 1 - W = bs.length - W + 1 by omega]
      · rw [List.take_append_of_le_length (by omega),
          show bs.length + 1 - W = bs.length - W + 1 by omega,
          ← List.take_concat_get bs (bs.length - W) hlt]
        rw [List.concat_eq_append]

/-- C2 counterexample: with warmup horizon `W = 1` and `n = 1` processed
non-top watermark, the operator performs `0` scoring passes, while the
claim's formula `max(0, n - W + 1)` gives `1`: the warmup check runs
before the new batch is appended, so no pass happens at the `W`-th
watermark itself. -/
theorem claim_warmup_schedule_counterexample :
    (evalRun 1 evalInit [(0 : Nat)]).map (fun s => s.scoreCount) =
      Except.ok 0 ∧ max 0 (1 - 1 + 1) = 1 := by
  constructor
  · rfl
  · rfl

/-- C2 amended: for every sequence of `n` processed non-top watermarks
with warmup horizon `W ≥ 1`, the run succeeds, the number of scoring
passes (invocations of `_calculate_metrics`) equals `max(0, n - W)`
(natural subtraction), each pass scores the oldest still-buffered batch —
so the batches scored, in order, are exactly the first `n - W` batches —
and the deque holds the most recent `min(n, W)` batches; in particular
the buffer length reaches `W` exactly when the `W`-th batch is appended
and never drops below it afterwards, so the `WAITING_WARMUP → SCORING`
transition occurs exactly once. -/
theorem claim_warmup_schedule_amended {α : Type} (W : Nat) (hW : 1 ≤ W)
    (batches : List α) :
    ∃ s, evalRun W evalInit batches = Except.ok s ∧
      s.scoreCount = batches.length - W ∧
      s.scored = batches.take (batches.length - W) ∧
      s.predictions = batches.drop (batches.length - W) ∧
      s.predictions.length = min batches.length W := by
  refine ⟨_, evalRun_closed W hW batches, rfl, rfl, rfl, ?_⟩
  simp [List.length_drop]
  omega

theorem claim_warmup_schedule_amended_witness :
    ∃ s, evalRun 2 evalInit [10, 20, 30] = Except.ok s ∧
      s.scoreCount = 1 ∧ s.scored = [10] ∧ s.predictions = [20, 30] ∧
      s.predictions.length = min 3 2 := by
  have h := claim_warmup_schedule_amended 2 (by decide) [10, 20, 30]
  simpa using h

/-- An erdos logical timestamp: either the distinguished top timestamp or
a single game-time coordinate, as in `Timestamp(coordinates=[game_time])`. -/
structure Timestamp where
  is_top : Bool
  coordinate : Nat
  deriving DecidableEq, Repr

/-- A pickled point-cloud snapshot as stored in `self._pickled_messages`;
the payload itself is an abstract datum represented by a natural. -/
structure Pickled where
  data : Nat
  deriving DecidableEq, Repr

/-- A message emitted by the lidar driver operator on one of its two
output streams, or a Python exception surfaced to the caller. -/
inductive GateOutput where
  | leftMessage (t : Timestamp) (data : Nat)
  | leftPickled (t : Timestamp) (p : Pickled)
  | leftWatermark (t : Timestamp)
  | rightWatermark (t : Timestamp)
  | raised (e : PyError)
  deriving DecidableEq, Repr

/-- The mutable state of `CarlaLidarDriverOperator`: the `_release_data`
flag and the `_pickled_messages` dictionary. A Python dict is represented
as an insertion-ordered association list whose keys are unique. -/
structure LidarDriverState where
  release_data : Bool
  pickled_messages : List (Timestamp × Pickled)
  deriving DecidableEq, Repr

/-- Dictionary lookup `d[k]`: the first binding of `k`, if any. -/
def dictFind (d : List (Timestamp × Pickled)) (k : Timestamp) :
    Option Pickled :=
  match d with
  | [] => none
  | (k', v) :: rest => if k' = k then some v else dictFind rest k

/-- Dictionary assignment `d[k] = v`: replace the binding of `k` in place
if present, otherwise append a new binding at the end. -/
def dictSet (d : List (Timestamp × Pickled)) (k : Timestamp) (v : Pickled) :
    List (Timestamp × Pickled) :=
  match d with
  | [] => [(k, v)]
  | (k', v') :: rest =>
    if k' = k then (k, v) :: rest else (k', v') :: dictSet rest k v

/-- Dictionary deletion `del d[k]`: remove the binding of `k` (dict keys
are unique, so at most one binding exists). -/
def dictDelete (d : List (Timestamp × Pickled)) (k : Timestamp) :
    List (Timestamp × Pickled) :=
  match d with
  | [] => []
  | (k', v) :: rest =>
    if k' = k then dictDelete rest k else (k', v) :: dictDelete rest k

/-- `CarlaLidarDriverOperator.process_point_clouds`
(`carla_lidar_driver_operator.py` lines 48-77): on a simulator point
cloud with game time `game_time`, if `_release_data` is set, send the
message and its watermark on the left stream immediately; otherwise
pickle the data, store it in `_pickled_messages` under the timestamp,
and send only the watermark on the right stream. -/
def process_point_clouds (s : LidarDriverState) (game_time : Nat)
    (data : Nat) : LidarDriverState × List GateOutput :=
  let timestamp : Timestamp := ⟨false, game_time⟩
  if s.release_data then
    (s, [GateOutput.leftMessage timestamp data,
         GateOutput.leftWatermark timestamp])
  else
    ({ s with pickled_messages := dictSet s.pickled_messages timestamp ⟨data⟩ },
     [GateOutput.rightWatermark timestamp])

/-- `CarlaLidarDriverOperator.on_watermark`
(`carla_lidar_driver_operator.py` lines 149-163): a top watermark sets
`_release_data` permanently; any other watermark looks up
`_pickled_messages[timestamp]` (raising `KeyError` if absent), sends the
pickled payload and then the watermark on the left stream, and deletes
the entry. -/
def lidar_on_watermark (s : LidarDriverState) (t : Timestamp) :
    LidarDriverState × List GateOutput :=
  if t.is_top then
    ({ s with release_data := true }, [])
  else
    match dictFind s.pickled_messages t with
    | some pm =>
      ({ s with pickled_messages := dictDelete s.pickled_messages t },
       [GateOutput.leftPickled t pm, GateOutput.leftWatermark t])
    | none => (s, [GateOutput.raised PyError.keyError])

/-- An event in the lidar driver's life: a simulator point-cloud callback
or a watermark from the runtime. -/
inductive LidarOp where
  | pointCloud (game_time : Nat) (data : Nat)
  | watermark (t : Timestamp)
  deriving DecidableEq, Repr

/-- One step of the lidar driver on an event. -/
def lidarStep (s : LidarDriverState) (op : LidarOp) :
    LidarDriverState × List GateOutput :=
  match op with
  | LidarOp.pointCloud g d => process_point_clouds s g d
  | LidarOp.watermark t => lidar_on_watermark s t

/-- Run the lidar driver over a sequence of events, keeping the state. -/
def lidarRun (s : LidarDriverState) (ops : List LidarOp) :
    LidarDriverState :=
  ops.foldl (fun s op => (lidarStep s op).1) s

/-- The initial state of `CarlaLidarDriverOperator.__init__`: gated mode,
empty pickled-message cache. -/
def lidarInit : LidarDriverState := ⟨false, []⟩

theorem dictFind_dictSet_self (d : List (Timestamp × Pickled))
    (k : Timestamp) (v : Pickled) : dictFind (dictSet d k v) k = some v := by
  induction d with
  | nil => simp [dictSet, dictFind]
  | cons kv rest ih =>
    by_cases h : kv.1 = k
    · simp [dictSet, dictFind, h]
    · simp [dictSet, dictFind, h, ih]

theorem dictFind_dictDelete_self (d : List (Timestamp × Pickled))
    (k : Timestamp) : dictFind (dictDelete d k) k = none := by
  induction d with
  | nil => rfl
  | cons kv rest ih =>
    by_cases h : kv.1 = k
    · simp [dictDelete, h, ih]
    · simp [dictDelete, dictFind, h, ih]

/-- C3 counterexample: from the initial gated state, pushing key 5 with
payload 1 and then pushing key 5 again with payload 2 raises no error —
the outputs of the second push are just the completion marker — and the
cache afterwards holds the second payload: the first record was silently
overwritten, not protected by a duplicate-key error. -/
theorem claim_duplicate_key_counterexample :
    (process_point_clouds ((process_point_clouds lidarInit 5 1).1) 5 2).2 =
      [GateOutput.rightWatermark ⟨false, 5⟩] ∧
    dictFind ((process_point_clouds
        ((process_point_clouds lidarInit 5 1).1) 5 2).1).pickled_messages
      ⟨false, 5⟩ = some ⟨2⟩ := by
  constructor
  · rfl
  · rfl

/-- C3 amended: a gated push whose key is already present and unreleased
in the serialized cache raises no error; it silently overwrites the
stored record with the new one (last write wins). -/
theorem claim_duplicate_key_amended (s : LidarDriverState) (g d1 d2 : Nat)
    (hrel : s.release_data = false) :
    (process_point_clouds ((process_point_clouds s g d1).1) g d2).2 =
      [GateOutput.rightWatermark ⟨false, g⟩] ∧
    dictFind ((process_point_clouds
        ((process_point_clouds s g d1).1) g d2).1).pickled_messages
      ⟨false, g⟩ = some ⟨d2⟩ := by
  constructor
  · simp [process_point_clouds, hrel]
  · simp [process_point_clouds, hrel, dictFind_dictSet_self]

theorem claim_duplicate_key_amended_witness :
    (process_point_clouds ((process_point_clouds lidarInit 7 1).1) 7 9).2 =
      [GateOutput.rightWatermark ⟨false, 7⟩] ∧
    dictFind ((process_point_clouds
        ((process_point_clouds lidarInit 7 1).1) 7 9).1).pickled_messages
      ⟨false, 7⟩ = some ⟨9⟩ :=
  claim_duplicate_key_amended lidarInit 7 1 9 rfl

theorem process_point_clouds_gated (s : LidarDriverState) (g d : Nat)
    (hrel : s.release_data = false) :
    process_point_clouds s g d =
      ({ s with pickled_messages :=
          dictSet s.pickled_messages ⟨false, g⟩ ⟨d⟩ },
       [GateOutput.rightWatermark ⟨false, g⟩]) := by
  simp [process_point_clouds, hrel]

theorem lidar_on_watermark_some (s : LidarDriverState) (g : Nat)
    (pm : Pickled) (h : dictFind s.pickled_messages ⟨false, g⟩ = some pm) :
    lidar_on_watermark s ⟨false, g⟩ =
      ({ s with pickled_messages := dictDelete s.pickled_messages ⟨false, g⟩ },
       [GateOutput.leftPickled ⟨false, g⟩ pm,
        GateOutput.leftWatermark ⟨false, g⟩]) := by
  simp [lidar_on_watermark, h]

theorem lidar_on_watermark_none (s : LidarDriverState) (g : Nat)
    (h : dictFind s.pickled_messages ⟨false, g⟩ = none) :
    lidar_on_watermark s ⟨false, g⟩ =
      (s, [GateOutput.raised PyError.keyError]) := by
  simp [lidar_on_watermark, h]

/-- C5: from any gated state, offering a record under key `g` and then
releasing that key emits exactly the stored payload followed by the
completion marker, and removes the snapshot; releasing the same key a
second time raises `KeyError` (the missing-snapshot error), emits
nothing, and leaves the state unchanged. -/
theorem claim_release_exactly_once (s : LidarDriverState) (g d : Nat)
    (hrel : s.release_data = false) :
    (lidar_on_watermark ((process_point_clouds s g d).1) ⟨false, g⟩).2 =
      [GateOutput.leftPickled ⟨false, g⟩ ⟨d⟩,
       GateOutput.leftWatermark ⟨false, g⟩] ∧
    dictFind ((lidar_on_watermark ((process_point_clouds s g d).1)
        ⟨false, g⟩).1).pickled_messages ⟨false, g⟩ = none ∧
    (lidar_on_watermark ((lidar_on_watermark
        ((process_point_clouds s g d).1) ⟨false, g⟩).1) ⟨false, g⟩).2 =
      [GateOutput.raised PyError.keyError] ∧
    (lidar_on_watermark ((lidar_on_watermark
        ((process_point_clouds s g d).1) ⟨false, g⟩).1) ⟨false, g⟩).1 =
      (lidar_on_watermark ((process_point_clouds s g d).1) ⟨false, g⟩).1 := by
  rw [process_point_clouds_gated s g d hrel]
  rw [lidar_on_watermark_some _ g ⟨d⟩
    (dictFind_dictSet_self s.pickled_messages ⟨false, g⟩ ⟨d⟩)]
  rw [lidar_on_watermark_none _ g
    (dictFind_dictDelete_self (dictSet s.pickled_messages ⟨false, g⟩ ⟨d⟩)
      ⟨false, g⟩)]
  exact ⟨rfl,
    dictFind_dictDelete_self (dictSet s.pickled_messages ⟨false, g⟩ ⟨d⟩)
      ⟨false, g⟩, rfl, rfl⟩

theorem claim_release_exactly_once_witness :
    (lidar_on_watermark ((process_point_clouds lidarInit 4 6).1)
        ⟨false, 4⟩).2 =
      [GateOutput.leftPickled ⟨false, 4⟩ ⟨6⟩,
       GateOutput.leftWatermark ⟨false, 4⟩] ∧
    dictFind ((lidar_on_watermark ((process_point_clouds lidarInit 4 6).1)
        ⟨false, 4⟩).1).pickled_messages ⟨false, 4⟩ = none ∧
    (lidar_on_watermark ((lidar_on_watermark
        ((process_point_clouds lidarInit 4 6).1) ⟨false, 4⟩).1)
        ⟨false, 4⟩).2 = [GateOutput.raised PyError.keyError] ∧
    (lidar_on_watermark ((lidar_on_watermark
        ((process_point_clouds lidarInit 4 6).1) ⟨false, 4⟩).1)
        ⟨false, 4⟩).1 =
      (lidar_on_watermark ((process_point_clouds lidarInit 4 6).1)
        ⟨false, 4⟩).1 :=
  claim_release_exactly_once lidarInit 4 6 rfl

theorem lidarStep_release_mono (s : LidarDriverState) (op : LidarOp)
    (h : s.release_data = true) : (lidarStep s op).1.release_data = true := by
  cases op with
  | pointCloud g d => simp [lidarStep, process_point_clouds, h]
  | watermark t =>
    by_cases ht : t.is_top
    · simp [lidarStep, lidar_on_watermark, ht]
    · cases hf : dictFind s.pickled_messages t with
      | none => simp [lidarStep, lidar_on_watermark, ht, hf, h]
      | some pm => simp [lidarStep, lidar_on_watermark, ht, hf, h]

theorem lidarRun_release_mono (s : LidarDriverState) (ops : List LidarOp)
    (h : s.release_data = true) : (lidarRun s ops).release_data = true := by
  induction ops generalizing s with
  | nil => exact h
  | cons op rest ih =>
    exact ih _ (lidarStep_release_mono s op h)

/-- C8: for every operation sequence containing a top watermark observed
by `on_watermark`, the gate is in immediate mode afterwards no matter
what operations follow (the gated mode is never re-entered), and every
subsequently offered record is forwarded immediately on the left stream
with its payload and completion marker, leaving the cache untouched. -/
theorem claim_immediate_mode_irrevocable (pre post : List LidarOp)
    (ttop : Timestamp) (htop : ttop.is_top = true) (g d : Nat) :
    LidarDriverState.release_data
      (lidarRun lidarInit (pre ++ [LidarOp.watermark ttop] ++ post)) = true ∧
    (process_point_clouds
        (lidarRun lidarInit (pre ++ [LidarOp.watermark ttop] ++ post)) g d).2 =
      [GateOutput.leftMessage ⟨false, g⟩ d,
       GateOutput.leftWatermark ⟨false, g⟩] ∧
    (process_point_clouds
        (lidarRun lidarInit (pre ++ [LidarOp.watermark ttop] ++ post)) g d).1 =
      lidarRun lidarInit (pre ++ [LidarOp.watermark ttop] ++ post) := by
  have hrun : LidarDriverState.release_data
      (lidarRun lidarInit (pre ++ [LidarOp.watermark ttop] ++ post)) = true := by
    rw [lidarRun, List.foldl_append, List.foldl_append]
    apply lidarRun_release_mono
    simp only [List.foldl_cons, List.foldl_nil]
    simp [lidarStep, lidar_on_watermark, htop]
  refine ⟨hrun, ?_, ?_⟩
  · simp only [List.append_assoc, List.singleton_append] at hrun ⊢
    simp [process_point_clouds, hrun]
  · simp only [List.append_assoc, List.singleton_append] at hrun ⊢
    simp [process_point_clouds, hrun]

theorem claim_immediate_mode_irrevocable_witness :
    LidarDriverState.release_data
      (lidarRun lidarInit ([] ++ [LidarOp.watermark ⟨true, 0⟩] ++ [])) = true ∧
    (process_point_clouds
        (lidarRun lidarInit ([] ++ [LidarOp.watermark ⟨true, 0⟩] ++ []))
        3 8).2 =
      [GateOutput.leftMessage ⟨false, 3⟩ 8,
       GateOutput.leftWatermark ⟨false, 3⟩] ∧
    (process_point_clouds
        (lidarRun lidarInit ([] ++ [LidarOp.watermark ⟨true, 0⟩] ++ []))
        3 8).1 =
      lidarRun lidarInit ([] ++ [LidarOp.watermark ⟨true, 0⟩] ++ []) :=
  claim_immediate_mode_irrevocable [] [] ⟨true, 0⟩ rfl 3 8

/-- A bounding box as handled by the decay evaluator: an abstract entity
represented by a natural identifier (the operator never inspects boxes
itself; it only hands them to the metric function). -/
abbrev BBox := Nat

/-- The IoU thresholds `[0.1 * i for i in range(1, 10)]` configured in
`DetectionDecayOperator.__init__` (`detection_decay_operator.py`
line 24). -/
def iou_thresholds : List ℚ :=
  [1/10, 2/10, 3/10, 4/10, 5/10, 6/10, 7/10, 8/10, 9/10]

/-- The per-entry metric block of `DetectionDecayOperator.on_data`
(`detection_decay_operator.py` lines 50-56): evaluate the metric at every
configured threshold and average the results. The metric
(`get_precision_recall_at_iou`, not under `src/`) is a parameter. -/
def avg_precision (metric : List BBox → List BBox → ℚ → ℚ)
    (bboxes old_bboxes : List BBox) : ℚ :=
  let precisions := iou_thresholds.map (fun iou => metric bboxes old_bboxes iou)
  precisions.sum / (precisions.length : ℚ)

/-- The eviction loop of `DetectionDecayOperator.on_data`
(`detection_decay_operator.py` lines 37-41): pop entries from the front
of the window while the front entry is older than `decay_max_latency`
relative to `game_time`. -/
def evictOld (max_latency : ℤ) (game_time : Nat) :
    List (Nat × List BBox) → List (Nat × List BBox)
  | [] => []
  | (t0, b0) :: rest =>
    if (game_time : ℤ) - (t0 : ℤ) > max_latency then
      evictOld max_latency game_time rest
    else (t0, b0) :: rest

/-- The comparison loop of `DetectionDecayOperator.on_data`
(`detection_decay_operator.py` lines 44-64): for each retained entry, if
either entity set is non-empty, emit one `(latency, average precision)`
observation. -/
def decayEmissions (metric : List BBox → List BBox → ℚ → ℚ)
    (game_time : Nat) (bboxes : List BBox) :
    List (Nat × List BBox) → List (ℤ × ℚ)
  | [] => []
  | (old_t, old_b) :: rest =>
    (if 0 < bboxes.length ∨ 0 < old_b.length then
       [((game_time : ℤ) - (old_t : ℤ), avg_precision metric bboxes old_b)]
     else []) ++ decayEmissions metric game_time bboxes rest

/-- The window machinery of `DetectionDecayOperator.on_data` applied to an
already-selected entity set: evict old entries, emit one observation per
retained entry with a non-empty side, then buffer the new entry at the
tail. -/
def observe (metric : List BBox → List BBox → ℚ → ℚ) (max_latency : ℤ)
    (game_time : Nat) (bboxes : List BBox)
    (window : List (Nat × List BBox)) :
    List (Nat × List BBox) × List (ℤ × ℚ) :=
  let w1 := evictOld max_latency game_time window
  (w1 ++ [(game_time, bboxes)], decayEmissions metric game_time bboxes w1)

/-- An obstacle as seen by `DetectionDecayOperator.on_data`: its class
predicate and its bounding box. -/
structure Obstacle where
  is_person : Bool
  bounding_box : BBox
  deriving DecidableEq, Repr

/-- The bounding-box selection loop of `DetectionDecayOperator.on_data`
(`detection_decay_operator.py` lines 31-35): keep exactly the bounding
boxes of obstacles classified as persons, in order. -/
def selectPersonBboxes : List Obstacle → List BBox
  | [] => []
  | o :: rest =>
    if o.is_person then o.bounding_box :: selectPersonBboxes rest
    else selectPersonBboxes rest

/-- The full `DetectionDecayOperator.on_data` handler
(`detection_decay_operator.py` lines 26-67): select the person bounding
boxes, then run the decay-window machinery on them. -/
def decay_on_data (metric : List BBox → List BBox → ℚ → ℚ)
    (max_latency : ℤ) (game_time : Nat) (obstacles : List Obstacle)
    (window : List (Nat × List BBox)) :
    List (Nat × List BBox) × List (ℤ × ℚ) :=
  observe metric max_latency game_time (selectPersonBboxes obstacles) window

/-- Run `on_data` over a sequence of inputs, keeping the window. -/
def observeRun (metric : List BBox → List BBox → ℚ → ℚ) (max_latency : ℤ)
    (w : List (Nat × List BBox)) (inputs : List (Nat × List BBox)) :
    List (Nat × List BBox) :=
  inputs.foldl (fun w i => (observe metric max_latency i.1 i.2 w).1) w

theorem evictOld_sublist (L : ℤ) (t : Nat) (w : List (Nat × List BBox)) :
    (evictOld L t w).Sublist w := by
  induction w with
  | nil => exact List.Sublist.refl []
  | cons e rest ih =>
    obtain ⟨t0, b0⟩ := e
    by_cases h : (t : ℤ) - (t0 : ℤ) > L
    · simp only [evictOld, if_pos h]
      exact ih.trans (List.sublist_cons_self _ _)
    · simp only [evictOld, if_neg h]
      exact List.Sublist.refl _

theorem evictOld_head_bound (L : ℤ) (t : Nat) (w : List (Nat × List BBox)) :
    evictOld L t w = [] ∨
    ∃ h rest, evictOld L t w = h :: rest ∧ (t : ℤ) - (h.1 : ℤ) ≤ L := by
  induction w with
  | nil => exact Or.inl rfl
  | cons e rest ih =>
    obtain ⟨t0, b0⟩ := e
    by_cases h : (t : ℤ) - (t0 : ℤ) > L
    · simpa [evictOld, if_pos h] using ih
    · exact Or.inr ⟨(t0, b0), rest,
        by simp [evictOld, if_neg h], by omega⟩

theorem observe_step_invariant (metric : List BBox → List BBox → ℚ → ℚ)
    (L : ℤ) (hL : 0 ≤ L) (t : Nat) (b : List BBox)
    (w : List (Nat × List BBox))
    (hsort : List.Pairwise (· ≤ ·) (w.map Prod.fst))
    (hub : ∀ e ∈ w, e.1 ≤ t) :
    List.Pairwise (· ≤ ·) (((observe metric L t b w).1).map Prod.fst) ∧
    (∀ e ∈ (observe metric L t b w).1, e.1 ≤ t) ∧
    (∀ e ∈ (observe metric L t b w).1, (t : ℤ) - (e.1 : ℤ) ≤ L) := by
  have hsub := evictOld_sublist L t w
  have hmem : ∀ e ∈ evictOld L t w, e ∈ w := fun e he => hsub.mem he
  have hsort1 : List.Pairwise (· ≤ ·) ((evictOld L t w).map Prod.fst) :=
    List.Pairwise.sublist (hsub.map Prod.fst) hsort
  have hub1 : ∀ e ∈ evictOld L t w, e.1 ≤ t := fun e he => hub e (hmem e he)
  have hbound : ∀ e ∈ evictOld L t w, (t : ℤ) - (e.1 : ℤ) ≤ L := by
    rcases evictOld_head_bound L t w with hnil | ⟨h, rest, heq, hhd⟩
    · rw [hnil]
      intro e he
      simp at he
    · rw [heq]
      rw [heq] at hsort1
      intro e he
      rcases List.mem_cons.mp he with rfl | he'
      · exact hhd
      · have : h.1 ≤ e.1 := by
          rw [List.map_cons, List.pairwise_cons] at hsort1
          exact hsort1.1 e.1 (List.mem_map_of_mem Prod.fst he')
        omega
  refine ⟨?_, ?_, ?_⟩
  · rw [observe]
    simp only [List.map_append, List.map_cons, List.map_nil]
    rw [List.pairwise_append]
    refine ⟨hsort1, List.pairwise_singleton _ _, ?_⟩
    intro x hx y hy
    simp only [List.mem_singleton] at hy
    subst hy
    obtain ⟨e, he, rfl⟩ := List.mem_map.mp hx
    exact hub1 e he
  · intro e he
    rw [observe] at he
    rcases List.mem_append.mp he with he' | he'
    · exact hub1 e he'
    · simp only [List.mem_singleton] at he'
      subst he'
      exact le_rfl
  · intro e he
    rw [observe] at he
    rcases List.mem_append.mp he with he' | he'
    · exact hbound e he'
    · simp only [List.mem_singleton] at he'
      subst he'
      simp
      omega

theorem observeRun_invariant (metric : List BBox → List BBox → ℚ → ℚ)
    (L : ℤ) (hL : 0 ≤ L) (t : Nat) (b : List BBox) :
    ∀ (inputs : List (Nat × List BBox)) (w : List (Nat × List BBox)),
      List.Pairwise (· ≤ ·)
        (w.map Prod.fst ++ (inputs ++ [(t, b)]).map Prod.fst) →
      List.Pairwise (· ≤ ·)
        ((observeRun metric L w (inputs ++ [(t, b)])).map Prod.fst) ∧
      ∀ e ∈ observeRun metric L w (inputs ++ [(t, b)]),
        (t : ℤ) - (e.1 : ℤ) ≤ L := by
  intro inputs
  induction inputs with
  | nil =>
    intro w hp
    simp only [List.nil_append, List.map_cons, List.map_nil] at hp
    rw [List.pairwise_append] at hp
    obtain ⟨hw, _, hcross⟩ := hp
    have hub : ∀ e ∈ w, e.1 ≤ t := by
      intro e he
      exact hcross e.1 (List.mem_map_of_mem Prod.fst he) t (by simp)
    have h := observe_step_invariant metric L hL t b w hw hub
    exact ⟨h.1, h.2.2⟩
  | cons i rest ih =>
    intro w hp
    obtain ⟨t1, b1⟩ := i
    simp only [List.cons_append, List.map_cons] at hp
    have hp' : List.Pairwise (· ≤ ·)
        (w.map Prod.fst ++ t1 :: (rest ++ [(t, b)]).map Prod.fst) := hp
    rw [List.pairwise_append] at hp'
    obtain ⟨hw, hr, hcross⟩ := hp'
    rw [List.pairwise_cons] at hr
    obtain ⟨ht1, hrest⟩ := hr
    have hub : ∀ e ∈ w, e.1 ≤ t1 := by
      intro e he
      exact hcross e.1 (List.mem_map_of_mem Prod.fst he) t1 (by simp)
    have hstep := observe_step_invariant metric L hL t1 b1 w hw hub
    have hnext : List.Pairwise (· ≤ ·)
        (((observe metric L t1 b1 w).1).map Prod.fst ++
          (rest ++ [(t, b)]).map Prod.fst) := by
      rw [List.pairwise_append]
      refine ⟨hstep.1, hrest, ?_⟩
      intro x hx y hy
      obtain ⟨e, he, rfl⟩ := List.mem_map.mp hx
      exact le_trans (hstep.2.1 e he) (ht1 y hy)
    have := ih ((observe metric L t1 b1 w).1) hnext
    rw [observeRun] at this ⊢
    simpa [List.foldl_cons] using this

/-- C6: for every sequence of observations with non-decreasing keys and a
non-negative configured latency bound, after the final observe call every
retained window entry `(age_key, entity_set)` satisfies
`current_key - age_key ≤ max_latency`, and the window's keys are sorted
(non-decreasing) — eviction from the front plus tail insertion never
needs a re-sort. -/
theorem claim_decay_window_invariant
    (metric : List BBox → List BBox → ℚ → ℚ) (L : ℤ) (hL : 0 ≤ L)
    (inputs : List (Nat × List BBox)) (t : Nat) (b : List BBox)
    (hmono : List.Pairwise (· ≤ ·) ((inputs ++ [(t, b)]).map Prod.fst)) :
    List.Pairwise (· ≤ ·)
      ((observeRun metric L [] (inputs ++ [(t, b)])).map Prod.fst) ∧
    ∀ e ∈ observeRun metric L [] (inputs ++ [(t, b)]),
      (t : ℤ) - (e.1 : ℤ) ≤ L :=
  observeRun_invariant metric L hL t b inputs [] (by simpa using hmono)

theorem claim_decay_window_invariant_witness :
    List.Pairwise (· ≤ ·)
      ((observeRun (fun _ _ _ => 0) 100 []
        ([(0, [1]), (50, [1]), (120, [1])] ++ [(260, [1])])).map Prod.fst) ∧
    ∀ e ∈ observeRun (fun _ _ _ => 0) 100 []
        ([(0, [1]), (50, [1]), (120, [1])] ++ [(260, [1])]),
      ((260 : Nat) : ℤ) - (e.1 : ℤ) ≤ 100 :=
  claim_decay_window_invariant (fun _ _ _ => 0) 100 (by decide)
    [(0, [1]), (50, [1]), (120, [1])] 260 [1] (by decide)

theorem decayEmissions_eq_filterMap (metric : List BBox → List BBox → ℚ → ℚ)
    (t : Nat) (b : List BBox) (w : List (Nat × List BBox)) :
    decayEmissions metric t b w = w.filterMap (fun e =>
      if 0 < b.length ∨ 0 < e.2.length then
        some (((t : Nat) : ℤ) - (e.1 : ℤ), avg_precision metric b e.2)
      else none) := by
  induction w with
  | nil => rfl
  | cons e rest ih =>
    obtain ⟨t0, b0⟩ := e
    by_cases h : 0 < b.length ∨ 0 < b0.length
    · simp [decayEmissions, h, ih, List.filterMap_cons]
    · simp [decayEmissions, h, ih, List.filterMap_cons]

/-- C7: every `observe(key, entity_set)` call first evicts the stale
front entries, then emits exactly one `(latency, averaged metric)`
observation for each remaining entry with at least one non-empty side —
computing the metric at each threshold of the configured ascending
list and averaging — and finally appends `(key, entity_set)` at the
tail, so the new entry is never compared against itself and both-empty
pairs yield no observation; the threshold list is strictly ascending. -/
theorem claim_observe_contract (metric : List BBox → List BBox → ℚ → ℚ)
    (L : ℤ) (t : Nat) (b : List BBox) (w : List (Nat × List BBox)) :
    (observe metric L t b w).1 = evictOld L t w ++ [(t, b)] ∧
    (observe metric L t b w).2 = (evictOld L t w).filterMap (fun e =>
      if 0 < b.length ∨ 0 < e.2.length then
        some (((t : Nat) : ℤ) - (e.1 : ℤ), avg_precision metric b e.2)
      else none) ∧
    List.Pairwise (· < ·) iou_thresholds := by
  refine ⟨rfl, decayEmissions_eq_filterMap metric t b (evictOld L t w), ?_⟩
  rw [iou_thresholds]
  norm_num

/-- C10: for every input message to the detection-decay evaluator, the
entity set entered into the window — both the set compared against the
buffered history and the set buffered as the new tail entry — consists of
exactly the bounding boxes of the obstacles classified as persons, in
order; obstacles of every other class are excluded. -/
theorem claim_person_only_ground_truth
    (metric : List BBox → List BBox → ℚ → ℚ) (L : ℤ) (t : Nat)
    (obstacles : List Obstacle) (w : List (Nat × List BBox)) :
    selectPersonBboxes obstacles =
      (obstacles.filter (fun o => o.is_person)).map
        (fun o => o.bounding_box) ∧
    (decay_on_data metric L t obstacles w).1 =
      evictOld L t w ++
        [(t, (obstacles.filter (fun o => o.is_person)).map
            (fun o => o.bounding_box))] ∧
    (decay_on_data metric L t obstacles w).2 =
      decayEmissions metric t
        ((obstacles.filter (fun o => o.is_person)).map
          (fun o => o.bounding_box)) (evictOld L t w) := by
  have hsel : selectPersonBboxes obstacles =
      (obstacles.filter (fun o => o.is_person)).map
        (fun o => o.bounding_box) := by
    induction obstacles with
    | nil => rfl
    | cons o rest ih =>
      by_cases h : o.is_person
      · simp [selectPersonBboxes, h, ih, List.filter_cons]
      · simp [selectPersonBboxes, h, ih, List.filter_cons]
  refine ⟨hsel, ?_, ?_⟩
  · rw [decay_on_data, hsel, observe]
  · rw [decay_on_data, hsel, observe]

theorem score_isOk (predicted ground : List Vector2D) (hne : predicted ≠ [])
    (hle : predicted.length ≤ ground.length) :
    ∃ m, score predicted ground = Except.ok m := by
  have hpos : 0 < predicted.length := List.length_pos.mpr hne
  obtain ⟨v, hv⟩ := distLoop_isOk predicted ground predicted.length le_rfl hle
  rw [score, hv, pyNegGet_of_le predicted 1 le_rfl hpos,
    pyNegGet_of_le ground 1 le_rfl (by omega)]
  simp only [Bind.bind, Except.bind]
  rw [if_neg (by omega : ¬ predicted.length = 0)]
  exact ⟨_, rfl⟩

/-- An obstacle prediction as consumed by `_calculate_metrics`: its
tracked id, its class predicates (`is_vehicle()` / `is_person()`), and
its predicted trajectory (already reduced to 2D points). -/
structure ObstaclePrediction where
  id : Nat
  is_vehicle : Bool
  is_person : Bool
  predicted_trajectory : List Vector2D
  deriving DecidableEq, Repr

/-- Lookup in the `ground_trajectories` dictionary built by
`on_watermark` (`prediction_eval_operator.py` lines 83-87), keyed by
obstacle id. -/
def findTrajectory (d : List (Nat × List Vector2D)) (k : Nat) :
    Option (List Vector2D) :=
  match d with
  | [] => none
  | (k', v) :: rest => if k' = k then some v else findTrajectory rest k

/-- The per-class accumulators of `_calculate_metrics`
(`prediction_eval_operator.py` lines 109-119). -/
structure ClassCounts where
  vehicle_cnt : Nat
  person_cnt : Nat
  vehicle_msd : ℚ
  vehicle_ade : ℚ
  vehicle_fde : ℚ
  person_msd : ℚ
  person_ade : ℚ
  person_fde : ℚ
  deriving DecidableEq, Repr

/-- The all-zero accumulators `_calculate_metrics` starts from. -/
def calcInit : ClassCounts := ⟨0, 0, 0, 0, 0, 0, 0, 0⟩

/-- The loop body of `_calculate_metrics`
(`prediction_eval_operator.py` lines 121-162) for one obstacle
prediction: look up the ground trajectory by id (`KeyError` if absent),
classify the obstacle — incrementing exactly one of the two class
counters, or raising `ValueError` when the obstacle is neither vehicle
nor person — then score the trajectories and add the metrics into the
matching class accumulators. -/
def calc_step (ground : List (Nat × List Vector2D)) (st : ClassCounts)
    (p : ObstaclePrediction) : Except PyError ClassCounts := do
  let ground_trajectory ← match findTrajectory ground p.id with
    | some tr => Except.ok tr
    | none => Except.error PyError.keyError
  let st1 ←
    if p.is_vehicle then
      Except.ok { st with vehicle_cnt := st.vehicle_cnt + 1 }
    else if p.is_person then
      Except.ok { st with person_cnt := st.person_cnt + 1 }
    else Except.error PyError.valueError
  let m ← score p.predicted_trajectory ground_trajectory
  if p.is_vehicle then
    Except.ok ⟨st1.vehicle_cnt, st1.person_cnt,
      st1.vehicle_msd + m.msd, st1.vehicle_ade + m.ade,
      st1.vehicle_fde + m.fde,
      st1.person_msd, st1.person_ade, st1.person_fde⟩
  else if p.is_person then
    Except.ok ⟨st1.vehicle_cnt, st1.person_cnt,
      st1.vehicle_msd, st1.vehicle_ade, st1.vehicle_fde,
      st1.person_msd + m.msd, st1.person_ade + m.ade,
      st1.person_fde + m.fde⟩
  else Except.error PyError.valueError

/-- The aggregation loop of `_calculate_metrics` over a prediction batch
(`prediction_eval_operator.py` lines 121-162), starting from the
all-zero accumulators. -/
def calculate_metrics (ground : List (Nat × List Vector2D))
    (predictions : List ObstaclePrediction) : Except PyError ClassCounts :=
  predictions.foldlM (calc_step ground) calcInit

theorem calc_step_unclassified (ground : List (Nat × List Vector2D))
    (st : ClassCounts) (p : ObstaclePrediction)
    (hg : (findTrajectory ground p.id).isSome)
    (hv : p.is_vehicle = false) (hp : p.is_person = false) :
    calc_step ground st p = Except.error PyError.valueError := by
  obtain ⟨tr, htr⟩ := Option.isSome_iff_exists.mp hg
  rw [calc_step, htr]
  simp [hv, hp, Bind.bind, Except.bind]

theorem calc_step_classified (ground : List (Nat × List Vector2D))
    (st : ClassCounts) (p : ObstaclePrediction) (tr : List Vector2D)
    (htr : findTrajectory ground p.id = some tr)
    (hne : p.predicted_trajectory ≠ [])
    (hle : p.predicted_trajectory.length ≤ tr.length)
    (hcls : p.is_vehicle = true ∨ p.is_person = true) :
    ∃ st2, calc_step ground st p = Except.ok st2 ∧
      st2.vehicle_cnt = st.vehicle_cnt + (if p.is_vehicle then 1 else 0) ∧
      st2.person_cnt =
        st.person_cnt + (if !p.is_vehicle && p.is_person then 1 else 0) := by
  obtain ⟨m, hm⟩ := score_isOk p.predicted_trajectory tr hne hle
  rw [calc_step, htr]
  by_cases hv : p.is_vehicle
  · simp [hv, hm, Bind.bind, Except.bind]
  · have hp : p.is_person = true := by
      rcases hcls with h | h
      · exact absurd h hv
      · exact h
    simp [hv, hp, hm, Bind.bind, Except.bind]

theorem calculate_metrics_ok_from (ground : List (Nat × List Vector2D))
    (preds : List ObstaclePrediction) :
    ∀ st : ClassCounts,
    (∀ p ∈ preds, ∃ g, findTrajectory ground p.id = some g ∧
      p.predicted_trajectory ≠ [] ∧
      p.predicted_trajectory.length ≤ g.length) →
    (∀ p ∈ preds, p.is_vehicle = true ∨ p.is_person = true) →
    ∃ stf, preds.foldlM (calc_step ground) st = Except.ok stf ∧
      stf.vehicle_cnt = st.vehicle_cnt +
        (preds.filter (fun p => p.is_vehicle)).length ∧
      stf.person_cnt = st.person_cnt +
        (preds.filter (fun p => !p.is_vehicle && p.is_person)).length := by
  induction preds with
  | nil =>
    intro st _ _
    exact ⟨st, rfl, by simp, by simp⟩
  | cons p rest ih =>
    intro st hok hcls
    obtain ⟨tr, htr, hne, hle⟩ := hok p (List.mem_cons_self p rest)
    obtain ⟨st2, hst2, hveh, hper⟩ := calc_step_classified ground st p tr
      htr hne hle (hcls p (List.mem_cons_self p rest))
    obtain ⟨stf, hstf, hv2, hp2⟩ := ih st2
      (fun q hq => hok q (List.mem_cons_of_mem p hq))
      (fun q hq => hcls q (List.mem_cons_of_mem p hq))
    refine ⟨stf, ?_, ?_, ?_⟩
    · rw [List.foldlM_cons, hst2]
      simpa using hstf
    · rw [hv2, hveh, List.filter_cons]
      by_cases hv : p.is_vehicle
      · simp [hv]
        omega
      · simp [hv]
    · rw [hp2, hper, List.filter_cons]
      by_cases hv : p.is_vehicle
      · simp [hv]
      · have hp : p.is_person = true := by
          rcases hcls p (List.mem_cons_self p rest) with h | h
          · exact absurd h hv
          · exact h
        simp [hv, hp]
        omega

theorem calculate_metrics_error_from (ground : List (Nat × List Vector2D))
    (preds : List ObstaclePrediction) :
    ∀ st : ClassCounts,
    (∀ p ∈ preds, ∃ g, findTrajectory ground p.id = some g ∧
      p.predicted_trajectory ≠ [] ∧
      p.predicted_trajectory.length ≤ g.length) →
    (∃ p ∈ preds, p.is_vehicle = false ∧ p.is_person = false) →
    preds.foldlM (calc_step ground) st = Except.error PyError.valueError := by
  induction preds with
  | nil =>
    intro st _ hex
    simp at hex
  | cons p rest ih =>
    intro st hok hex
    obtain ⟨tr, htr, hne, hle⟩ := hok p (List.mem_cons_self p rest)
    by_cases hcp : p.is_vehicle = false ∧ p.is_person = false
    · rw [List.foldlM_cons,
        calc_step_unclassified ground st p (by rw [htr]; rfl) hcp.1 hcp.2]
      rfl
    · have hcls : p.is_vehicle = true ∨ p.is_person = true := by
        rcases Bool.eq_false_or_eq_true p.is_vehicle with h | h
        · exact Or.inl h
        · rcases Bool.eq_false_or_eq_true p.is_person with h2 | h2
          · exact Or.inr h2
          · exact absurd ⟨h, h2⟩ hcp

      obtain ⟨st2, hst2, _, _⟩ :=
        calc_step_classified ground st p tr htr hne hle hcls
      obtain ⟨q, hq, hqc⟩ := hex
      rcases List.mem_cons.mp hq with rfl | hq'
      · exact absurd hqc hcp
      · rw [List.foldlM_cons, hst2]
        have := ih st2 (fun r hr => hok r (List.mem_cons_of_mem p hr))
          ⟨q, hq', hqc⟩
        simpa using this

theorem filter_partition_length (preds : List ObstaclePrediction)
    (hcls : ∀ p ∈ preds, p.is_vehicle = true ∨ p.is_person = true) :
    (preds.filter (fun p => p.is_vehicle)).length +
      (preds.filter (fun p => !p.is_vehicle && p.is_person)).length =
      preds.length := by
  induction preds with
  | nil => rfl
  | cons p rest ih =>
    have ih' := ih (fun q hq => hcls q (List.mem_cons_of_mem p hq))
    rw [List.filter_cons, List.filter_cons]
    by_cases hv : p.is_vehicle
    · simp [hv]
      omega
    · have hp : p.is_person = true := by
        rcases hcls p (List.mem_cons_self p rest) with h | h
        · exact absurd h hv
        · exact h
      simp [hv, hp]
      omega

/-- C9: under well-formed inputs (every prediction's id resolves to a
ground trajectory long enough to score against), if any entity in the
batch is classified as neither vehicle nor person then
`_calculate_metrics` fails with the unknown-class `ValueError` (never
silently skipping it), and if every entity is classified then the pass
succeeds with every entity counted in exactly one class: the vehicle
count is the number of `is_vehicle` entities, the person count is the
number of remaining `is_person` entities, and the two counts partition
the batch. -/
theorem claim_unknown_class_exhaustive (ground : List (Nat × List Vector2D))
    (predictions : List ObstaclePrediction)
    (hok : ∀ p ∈ predictions, ∃ g, findTrajectory ground p.id = some g ∧
      p.predicted_trajectory ≠ [] ∧
      p.predicted_trajectory.length ≤ g.length) :
    ((∃ p ∈ predictions, p.is_vehicle = false ∧ p.is_person = false) →
      calculate_metrics ground predictions =
        Except.error PyError.valueError) ∧
    ((∀ p ∈ predictions, p.is_vehicle = true ∨ p.is_person = true) →
      ∃ st, calculate_metrics ground predictions = Except.ok st ∧
        st.vehicle_cnt =
          (predictions.filter (fun p => p.is_vehicle)).length ∧
        st.person_cnt =
          (predictions.filter (fun p => !p.is_vehicle && p.is_person)).length ∧
        st.vehicle_cnt + st.person_cnt = predictions.length) := by
  constructor
  · intro hex
    exact calculate_metrics_error_from ground predictions calcInit hok hex
  · intro hcls
    obtain ⟨st, hst, hv, hp⟩ :=
      calculate_metrics_ok_from ground predictions calcInit hok hcls
    refine ⟨st, hst, by simpa [calcInit] using hv,
      by simpa [calcInit] using hp, ?_⟩
    rw [hv, hp]
    simp only [calcInit, Nat.zero_add]
    exact filter_partition_length predictions hcls

theorem claim_unknown_class_exhaustive_witness :
    calculate_metrics [(1, [⟨0, 0⟩]), (2, [⟨0, 0⟩])]
        [⟨1, false, false, [⟨0, 0⟩]⟩] = Except.error PyError.valueError ∧
    ∃ st, calculate_metrics [(1, [⟨0, 0⟩]), (2, [⟨0, 0⟩])]
        [⟨1, true, false, [⟨0, 0⟩]⟩, ⟨2, false, true, [⟨0, 0⟩]⟩] =
          Except.ok st ∧
      st.vehicle_cnt = 1 ∧ st.person_cnt = 1 ∧
      st.vehicle_cnt + st.person_cnt = 2 := by
  have h1 := claim_unknown_class_exhaustive [(1, [⟨0, 0⟩]), (2, [⟨0, 0⟩])]
    [⟨1, false, false, [⟨0, 0⟩]⟩] (by
      intro p hp
      rw [List.mem_singleton] at hp
      subst hp
      exact ⟨[⟨0, 0⟩], rfl, by simp, le_rfl⟩)
  have h2 := claim_unknown_class_exhaustive [(1, [⟨0, 0⟩]), (2, [⟨0, 0⟩])]
    [⟨1, true, false, [⟨0, 0⟩]⟩, ⟨2, false, true, [⟨0, 0⟩]⟩] (by
      intro p hp
      rcases List.mem_cons.mp hp with rfl | hp'
      · exact ⟨[⟨0, 0⟩], rfl, by simp, le_rfl⟩
      · rw [List.mem_singleton] at hp'
        subst hp'
        exact ⟨[⟨0, 0⟩], rfl, by simp, le_rfl⟩)
  constructor
  · exact h1.1 ⟨⟨1, false, false, [⟨0, 0⟩]⟩, List.mem_singleton.mpr rfl,
      rfl, rfl⟩
  · obtain ⟨st, hst, hv, hp, hsum⟩ := h2.2 (by
      intro p hp
      rcases List.mem_cons.mp hp with rfl | hp'
      · exact Or.inl rfl
      · rw [List.mem_singleton] at hp'
        subst hp'
        exact Or.inr rfl)
    refine ⟨st, hst, ?_, ?_, ?_⟩
    · rw [hv]
      rfl
    · rw [hp]
      rfl
    · rw [hsum]
      rfl
